import Mathlib

/-!
# WebScrapper: a shallow embedding of `web_scraper.go`

The program fetches a bounded chain of pages, caches every page it downloads
in a temporary directory, extracts fields with CSS selectors and exports the
first page's record as `books.csv`.

Conventions of the embedding.

* A Go `string` is a `List Char` (`Str`).  The only separators the program
  looks for are the ASCII characters `,`, `=` and `/`.
* Libraries that are not part of the repository are parameters:
  `Goquery` stands for `github.com/PuerkitoBio/goquery`, and `Env` for the
  operating system and the network (`path/filepath`, `net/http`, `os`,
  `encoding/csv`).
* The file system and the network log form the explicit state `World`.
* `rate.Limiter.Wait`, `time.Sleep`, `log.Println` and `fmt.Println` do not
  change any value the program computes and are left out.
-/

set_option autoImplicit false

namespace WebScraper

/-! ## Strings -/

/-- Go strings. -/
abbrev Str := List Char

/-- Go `strings.Split(s, sep)` for a separator of one character: the pieces
between the occurrences of `sep`; the empty string gives one empty piece. -/
def split (sep : Char) : Str → List Str
  | [] => [[]]
  | c :: cs =>
    if c = sep then [] :: split sep cs
    else
      match split sep cs with
      | [] => [[c]]
      | p :: ps => (c :: p) :: ps

/-- Go `strings.ReplaceAll(s, old, new)` for `old` and `new` of one character. -/
def replaceAll (old new : Char) (s : Str) : Str :=
  s.map (fun c => if c = old then new else c)

/-! ## Go maps -/

/-- Go `map[string]string`: the bindings with pairwise different keys.  The
order of the list is the order in which `range` happens to visit them. -/
abbrev RuleMap := List (Str × Str)

/-- The map read `m[key]` with its presence flag. -/
def RuleMap.get (m : RuleMap) (key : Str) : Option Str :=
  match m with
  | [] => none
  | (k, v) :: rest => if k = key then some v else RuleMap.get rest key

/-- The map assignment `m[key] = value`. -/
def RuleMap.set (m : RuleMap) (key value : Str) : RuleMap :=
  match m with
  | [] => [(key, value)]
  | (k, v) :: rest =>
    if k = key then (k, value) :: rest else (k, v) :: RuleMap.set rest key value

/-- Go `map[string][]string`, read through `data[key]` with its presence flag. -/
abbrev Record := Str → Option (List Str)

/-- The value `make(map[string][]string)`. -/
def Record.empty : Record := fun _ => none

/-- The read `data[key]`: the nil slice when the key is absent. -/
def Record.values (data : Record) (key : Str) : List Str :=
  (data key).getD []

/-- The statement `data[key] = append(data[key], v)`. -/
def Record.append (data : Record) (key v : Str) : Record :=
  fun k => if k = key then some (Record.values data key ++ [v]) else data k

/-! ## `main`: the selector flag (lines 34-41) -/

/-- The body of the loop over `strings.Split(*selectors, ",")`. -/
def addSelector (cssSelectors : RuleMap) (selector : Str) : RuleMap :=
  match split '=' selector with
  | [name, expr] => RuleMap.set cssSelectors name expr
  | _ => cssSelectors

/-- The map `cssSelectors` that `main` builds from the flag `selectors`. -/
def parseSelectors (selectors : Str) : RuleMap :=
  (split ',' selectors).foldl addSelector []

/-- The words of the specification for the selector flag: the expression bound
to `name` comes from the last comma-separated entry that holds exactly one
`=` and has `name` in front of it; it is what follows the `=`. -/
def selectorBindingSpec (selectors name : Str) : Option Str :=
  (((split ',' selectors).filter
      (fun entry => decide (entry.count '=' = 1 ∧ entry.takeWhile (fun c => c != '=') = name))).getLast?).map
    (fun entry => (entry.dropWhile (fun c => c != '=')).drop 1)

/-! ## The world outside the program -/

/-- What a path of the file system holds. -/
inductive FsEntry
  | file (bytes : Str)
  | dir
  deriving DecidableEq, Repr

/-- The state the program changes: the file system, and the URLs it has
requested from the network so far (oldest first). -/
structure World where
  files : Str → Option FsEntry
  requests : List Str

/-- What `http.Get(url)` followed by `io.ReadAll(resp.Body)` can give: an error
of `http.Get`, or a response with its status code and with the body that
`io.ReadAll` reads (`none` when reading the body fails). -/
inductive HttpOutcome
  | getError
  | response (statusCode : Int) (body : Option Str)
  deriving DecidableEq, Repr

/-- What `ioutil.WriteFile` can do: write the whole file, or fail and leave
at the path either nothing new (`none`) or a file with the bytes that reached
the disk. -/
inductive WriteOutcome
  | ok
  | failed (left : Option Str)
  deriving DecidableEq, Repr

/-- The operating system and the network: the behaviour of the library calls
whose result the program does not control. -/
structure Env where
  /-- The function `filepath.Join(dir, name)`. -/
  join : Str → Str → Str
  /-- The answer to `http.Get(url)` when `k` requests were made before it. -/
  httpGet : Nat → Str → HttpOutcome
  /-- The outcome of `ioutil.WriteFile(path, ..)` when `k` requests have been
  made. -/
  ioWriteFile : Nat → Str → WriteOutcome
  /-- The directory `os.MkdirTemp("", "web_cache")` returns, `none` on error. -/
  mkdirTemp : Option Str
  /-- Whether `os.Create(filename)` succeeds. -/
  create : Str → Bool
  /-- Whether the `k`-th call of `writer.Write` (the header is call 0) returns
  no error. -/
  csvWrite : Nat → Bool

/-- The errors `fetchPage` returns. -/
inductive FetchError
  | cacheRead
  | httpGet
  | statusCode (code : Int)
  | bodyRead
  | cacheWrite
  deriving DecidableEq, Repr

/-- The pair `(string, error)` that `fetchPage` returns. -/
abbrev FetchResult := Except FetchError Str

instance : DecidableEq FetchResult := fun a b =>
  match a, b with
  | .ok x, .ok y => if h : x = y then isTrue (by rw [h]) else isFalse (by intro e; cases e; exact h rfl)
  | .error x, .error y => if h : x = y then isTrue (by rw [h]) else isFalse (by intro e; cases e; exact h rfl)
  | .ok _, .error _ => isFalse (by intro e; cases e)
  | .error _, .ok _ => isFalse (by intro e; cases e)

/-- The file system after `path` has received `entry`. -/
def World.store (w : World) (path : Str) (entry : FsEntry) : World :=
  { w with files := fun p => if p = path then some entry else w.files p }

/-! ## `readFile`, `writeFile`, `fetchPage` (lines 99-141) -/

/-- The function `readFile`: the bytes of a regular file, an error for a
directory or a missing file. -/
def readFile (w : World) (filename : Str) : FetchResult :=
  match w.files filename with
  | some (FsEntry.file bytes) => .ok bytes
  | _ => .error .cacheRead

/-- The function `writeFile`: `true` stands for a nil error. -/
def writeFile (E : Env) (w : World) (filename data : Str) : Bool × World :=
  match E.ioWriteFile w.requests.length filename with
  | .ok => (true, w.store filename (.file data))
  | .failed none => (false, w)
  | .failed (some bytes) => (false, w.store filename (.file bytes))

/-- The path `cacheFile` that `fetchPage` derives from the URL. -/
def cacheFile (E : Env) (url cacheDir : Str) : Str :=
  E.join cacheDir (replaceAll '/' '_' url)

/-- The function `fetchPage`.  `os.Stat` succeeds exactly on the paths that
hold something. -/
def fetchPage (E : Env) (url cacheDir : Str) (w : World) : FetchResult × World :=
  match w.files (cacheFile E url cacheDir) with
  | some _ => (readFile w (cacheFile E url cacheDir), w)
  | none =>
    let w1 : World := { w with requests := w.requests ++ [url] }
    match E.httpGet w.requests.length url with
    | .getError => (.error .httpGet, w1)
    | .response statusCode body =>
      if statusCode ≠ 200 then (.error (.statusCode statusCode), w1)
      else
        match body with
        | none => (.error .bodyRead, w1)
        | some bodyBytes =>
          match writeFile E w1 (cacheFile E url cacheDir) bodyBytes with
          | (false, w2) => (.error .cacheWrite, w2)
          | (true, w2) => (.ok bodyBytes, w2)

/-! ## goquery -/

/-- The part of `github.com/PuerkitoBio/goquery` the program calls. -/
structure Goquery where
  Doc : Type
  Node : Type
  /-- The call `goquery.NewDocumentFromReader(strings.NewReader(content))`,
  `none` when it returns an error. -/
  newDocument : Str → Option Doc
  /-- The call `doc.Find(selector)`: the matched elements in document order. -/
  find : Doc → Str → List Node
  /-- The call `s.Text()` on the selection of one element. -/
  text : Node → Str
  /-- The value of an attribute of an element, `none` when it has none. -/
  attr : Node → Str → Option Str

/-- The call `Selection.AttrOr(name, dflt)`: the attribute of the first element
of the selection, `dflt` when the selection is empty or the attribute is
missing. -/
def attrOr (G : Goquery) (selection : List G.Node) (name dflt : Str) : Str :=
  match selection with
  | [] => dflt
  | n :: _ => (G.attr n name).getD dflt

/-! ## `parsePage` (lines 143-158) -/

/-- The call `elements.Each(..)` inside `parsePage`. -/
def eachAppend (G : Goquery) (key : Str) (elements : List G.Node) (data : Record) : Record :=
  elements.foldl (fun d s => Record.append d key (G.text s)) data

/-- The loop of `parsePage` over the selector map. -/
def parseRules (G : Goquery) (doc : G.Doc) (cssSelectors : RuleMap) (data : Record) : Record :=
  cssSelectors.foldl (fun d kv => eachAppend G kv.1 (G.find doc kv.2) d) data

/-- The function `parsePage`; `none` when `log.Fatal` ends the process. -/
def parsePage (G : Goquery) (content : Str) (cssSelectors : RuleMap) : Option Record :=
  match G.newDocument content with
  | none => none
  | some doc => some (parseRules G doc cssSelectors Record.empty)

/-! ## `scrapeWebsite` (lines 63-97) -/

/-- One run of `scrapeWebsite`: the list it returns (`none` when `parsePage`
ended the process), the calls of `fetchPage` in order with their results, and
the world it leaves. -/
structure ScrapeRun where
  result : Option (List Record)
  fetches : List (Str × FetchResult)
  world : World

/-- The loop `for i := 0; i < maxPages; i++`; the first argument is the number
of iterations left, `maxPages - i`. -/
def scrapeLoop (E : Env) (G : Goquery) (cssSelectors : RuleMap) (cacheDir : Str) :
    Nat → Str → List Record → List (Str × FetchResult) → World → ScrapeRun
  | 0, _, allData, fetches, w => ⟨some allData, fetches, w⟩
  | left + 1, url, allData, fetches, w =>
    match fetchPage E url cacheDir w with
    | (.error e, w1) => ⟨some allData, fetches ++ [(url, .error e)], w1⟩
    | (.ok content, w1) =>
      match parsePage G content cssSelectors with
      | none => ⟨none, fetches ++ [(url, .ok content)], w1⟩
      | some data =>
        match G.newDocument content with
        | none => ⟨some (allData ++ [data]), fetches ++ [(url, .ok content)], w1⟩
        | some doc =>
          let nextPage := attrOr G (G.find doc "a.next".toList) "href".toList []
          if nextPage = [] then
            ⟨some (allData ++ [data]), fetches ++ [(url, .ok content)], w1⟩
          else
            scrapeLoop E G cssSelectors cacheDir left nextPage (allData ++ [data])
              (fetches ++ [(url, .ok content)]) w1

/-- The function `scrapeWebsite`. -/
def scrapeWebsite (E : Env) (G : Goquery) (baseURL startPage : Str)
    (cssSelectors : RuleMap) (maxPages : Int) (cacheDir : Str) (w : World) : ScrapeRun :=
  scrapeLoop E G cssSelectors cacheDir maxPages.toNat (baseURL ++ startPage) [] [] w

/-! ## `saveToCSV` (lines 160-186) -/

/-- How `saveToCSV` ends: it returns nil, it returns an error, or the index
expression `data["price"][i]` (or `data["title"][i]`) is out of range. -/
inductive SaveResult
  | ok
  | error
  | indexOutOfRange (index length : Nat)
  deriving DecidableEq, Repr

/-- One run of `saveToCSV`: how it ends, and the rows handed to the CSV
writer (`none` when the file was not created). -/
structure CsvRun where
  result : SaveResult
  rows : Option (List (List Str))
  deriving DecidableEq, Repr

/-- The loop `for i := 0; i < len(data["title"]); i++`; the first argument is
the number of iterations left. -/
def writeRows (E : Env) (title price : List Str) :
    Nat → Nat → List (List Str) → CsvRun
  | 0, _, rows => ⟨.ok, some rows⟩
  | left + 1, i, rows =>
    match title[i]? with
    | none => ⟨.indexOutOfRange i title.length, some rows⟩
    | some t =>
      match price[i]? with
      | none => ⟨.indexOutOfRange i price.length, some rows⟩
      | some p =>
        if E.csvWrite (i + 1) then writeRows E title price left (i + 1) (rows ++ [[t, p]])
        else ⟨.error, some rows⟩

/-- The function `saveToCSV`. -/
def saveToCSV (E : Env) (filename : Str) (data : Record) : CsvRun :=
  if E.create filename then
    if E.csvWrite 0 then
      writeRows E (Record.values data "title".toList) (Record.values data "price".toList)
        (Record.values data "title".toList).length 0 [["Title".toList, "Price".toList]]
    else ⟨.error, some []⟩
  else ⟨.error, none⟩

/-! ## `main` (lines 21-61) -/

/-- The command-line flags. -/
structure Flags where
  baseURL : Str
  startPage : Str
  selectors : Str
  maxPages : Int

/-- How the process ends. -/
inductive MainExit
  | success
  | fatal
  | indexOutOfRange (index length : Nat)
  deriving DecidableEq, Repr

/-- One run of the program: how it ends, the number of records
`scrapeWebsite` returned (when it returned), and the rows of `books.csv`
(`none` when `saveToCSV` did not create the file). -/
structure MainRun where
  exit : MainExit
  scraped : Option Nat
  csv : Option (List (List Str))
  deriving DecidableEq, Repr

/-- The function `main`, started in the world `w`. -/
def main (E : Env) (G : Goquery) (flags : Flags) (w : World) : MainRun :=
  if flags.baseURL = [] ∨ flags.startPage = [] ∨ flags.selectors = [] then
    ⟨.fatal, none, none⟩
  else
    match E.mkdirTemp with
    | none => ⟨.fatal, none, none⟩
    | some cacheDir =>
      match (scrapeWebsite E G flags.baseURL flags.startPage
          (parseSelectors flags.selectors) flags.maxPages cacheDir w).result with
      | none => ⟨.fatal, none, none⟩
      | some [] => ⟨.indexOutOfRange 0 0, some 0, none⟩
      | some (first :: rest) =>
        match saveToCSV E "books.csv".toList first with
        | ⟨.ok, rows⟩ => ⟨.success, some (rest.length + 1), rows⟩
        | ⟨.error, rows⟩ => ⟨.fatal, some (rest.length + 1), rows⟩
        | ⟨.indexOutOfRange i n, rows⟩ => ⟨.indexOutOfRange i n, some (rest.length + 1), rows⟩

/-! ## Sample worlds

Concrete instances of the parameters, on which the theorems are evaluated. -/

/-- A file system without any entry and a network log without any request. -/
def emptyWorld : World := ⟨fun _ => none, []⟩

/-- A network that serves a fixed table of pages, each with a status code and
a body, and refuses every other URL. -/
def siteNet (pages : List (Str × Int × Str)) : Nat → Str → HttpOutcome :=
  fun _ url =>
    match pages.find? (fun page => decide (page.1 = url)) with
    | some (_, statusCode, body) => .response statusCode (some body)
    | none => .getError

/-- An environment in which every file operation succeeds; `filepath.Join` is
taken on a clean directory and a name without separators. -/
def sampleEnv (net : Nat → Str → HttpOutcome) : Env where
  join := fun dir name => dir ++ '/' :: name
  httpGet := net
  ioWriteFile := fun _ _ => .ok
  mkdirTemp := some "/tmp/web_cache1".toList
  create := fun _ => true
  csvWrite := fun _ => true

/-- An element of a sample page: the selectors that match it, its text and
its `href` attribute. -/
structure SampleNode where
  selectors : List Str
  text : Str
  href : Option Str
  deriving DecidableEq, Repr

/-- A goquery that reads a page from a table of already parsed pages. -/
def sampleGoquery (pages : List (Str × List SampleNode)) : Goquery where
  Doc := List SampleNode
  Node := SampleNode
  newDocument := fun content =>
    (pages.find? (fun page => decide (page.1 = content))).map (fun page => page.2)
  find := fun doc selector => doc.filter (fun n => decide (selector ∈ n.selectors))
  text := fun n => n.text
  attr := fun n name => if name = "href".toList then n.href else none

/-- The parsed pages of the sample site: the first page lists `A`/`1` and
`B`/`2` and links to `http://x/p2`, the second page lists `C`/`3` and has no
next link. -/
def samplePages : List (Str × List SampleNode) :=
  [("P1".toList,
      [⟨[".t".toList], "A".toList, none⟩, ⟨[".p".toList], "1".toList, none⟩,
       ⟨[".t".toList], "B".toList, none⟩, ⟨[".p".toList], "2".toList, none⟩,
       ⟨["a.next".toList], "next".toList, some "http://x/p2".toList⟩]),
   ("P2".toList,
      [⟨[".t".toList], "C".toList, none⟩, ⟨[".p".toList], "3".toList, none⟩])]

/-- The network of the sample site. -/
def sampleSite : Nat → Str → HttpOutcome :=
  siteNet [("http://x/p1".toList, 200, "P1".toList), ("http://x/p2".toList, 200, "P2".toList)]

/-- A record with the two fields `saveToCSV` reads. -/
def sampleRecord (title price : List Str) : Record :=
  fun key =>
    if key = "title".toList then some title
    else if key = "price".toList then some price
    else none

/-- The row `[]string{title, price}` of `saveToCSV`. -/
def csvRow (title price : Str) : List Str := [title, price]

/-- The flags of a sample run: base URL `http://x/`, start page `p1`,
selectors `title=.t,price=.p` and the default page limit. -/
def sampleFlags : Flags :=
  ⟨"http://x/".toList, "p1".toList, "title=.t,price=.p".toList, 5⟩

/-- A network on which the start page of the sample run answers 404. -/
def notFoundSite : Nat → Str → HttpOutcome :=
  siteNet [("http://x/p1".toList, 404, "not found".toList)]

/-- The parsed pages of the sample site when the next link of the first page
is written the way the start page is, as the path `p2`. -/
def relativePages : List (Str × List SampleNode) :=
  [("P1".toList,
      [⟨[".t".toList], "A".toList, none⟩, ⟨[".p".toList], "1".toList, none⟩,
       ⟨[".t".toList], "B".toList, none⟩, ⟨[".p".toList], "2".toList, none⟩,
       ⟨["a.next".toList], "next".toList, some "p2".toList⟩]),
   ("P2".toList,
      [⟨[".t".toList], "C".toList, none⟩, ⟨[".p".toList], "3".toList, none⟩])]

end WebScraper

namespace WebScraper

/-! ## Facts about `split` -/

theorem split_ne_nil (sep : Char) (s : Str) : split sep s ≠ [] := by
  induction s with
  | nil => simp [split]
  | cons c cs ih =>
    unfold split
    split_ifs
    · simp
    · cases h : split sep cs with
      | nil => exact absurd h ih
      | cons p ps => simp

theorem split_length (sep : Char) (s : Str) :
    (split sep s).length = s.count sep + 1 := by
  induction s with
  | nil => simp [split]
  | cons c cs ih =>
    unfold split
    by_cases hc : c = sep
    · subst hc
      simp [ih]
    · have hne : (c == sep) = false := by simpa using hc
      rw [if_neg hc, List.count_cons, hne]
      cases h : split sep cs with
      | nil => exact absurd h (split_ne_nil sep cs)
      | cons p ps =>
        rw [h] at ih
        simpa using ih

/-- The pieces, put back together with the separator, give the string. -/
theorem split_intercalate (sep : Char) (s : Str) :
    [sep].intercalate (split sep s) = s := by
  induction s with
  | nil => simp [split, List.intercalate]
  | cons c cs ih =>
    unfold split
    by_cases hc : c = sep
    · subst hc
      rw [if_pos rfl]
      cases h : split c cs with
      | nil => exact absurd h (split_ne_nil c cs)
      | cons p ps =>
        rw [h] at ih
        simp only [List.intercalate, List.intersperse, List.flatten] at ih ⊢
        simpa using ih
    · rw [if_neg hc]
      cases h : split sep cs with
      | nil => exact absurd h (split_ne_nil sep cs)
      | cons p ps =>
        rw [h] at ih
        cases ps with
        | nil =>
          simp only [List.intercalate, List.intersperse, List.flatten] at ih ⊢
          simpa using ih
        | cons q qs =>
          simp only [List.intercalate, List.intersperse, List.flatten] at ih ⊢
          simpa using ih

/-- No piece holds the separator. -/
theorem split_no_sep (sep : Char) (s : Str) :
    ∀ p ∈ split sep s, sep ∉ p := by
  induction s with
  | nil => simp [split]
  | cons c cs ih =>
    unfold split
    by_cases hc : c = sep
    · subst hc
      rw [if_pos rfl]
      intro p hp
      rcases List.mem_cons.mp hp with h | h
      · simp [h]
      · exact ih p h
    · rw [if_neg hc]
      cases h : split sep cs with
      | nil => exact absurd h (split_ne_nil sep cs)
      | cons q qs =>
        rw [h] at ih
        intro p hp
        rcases List.mem_cons.mp hp with h1 | h1
        · subst h1
          intro hmem
          rcases List.mem_cons.mp hmem with h2 | h2
          · exact hc h2.symm
          · exact ih q (List.mem_cons_self _ _) h2
        · exact ih p (List.mem_cons_of_mem _ h1)

/-! ## The selector flag -/

/-- A string without the separator is a single piece. -/
theorem split_of_count_zero (sep : Char) (s : Str) (h : s.count sep = 0) :
    split sep s = [s] := by
  induction s with
  | nil => simp [split]
  | cons c cs ih =>
    unfold split
    by_cases hc : c = sep
    · subst hc
      simp at h
    · have hne : (c == sep) = false := by simpa using hc
      rw [List.count_cons, hne] at h
      rw [if_neg hc, ih (by simpa using h)]

/-- A string with one separator splits into what stands before it and what
stands after it. -/
theorem split_of_count_one (sep : Char) (s : Str) (h : s.count sep = 1) :
    split sep s =
      [s.takeWhile (fun c => c != sep), (s.dropWhile (fun c => c != sep)).drop 1] := by
  induction s with
  | nil => simp at h
  | cons c cs ih =>
    unfold split
    by_cases hc : c = sep
    · subst hc
      have h0 : cs.count c = 0 := by simpa using h
      simp [split_of_count_zero c cs h0]
    · have hne : (c == sep) = false := by simpa using hc
      rw [List.count_cons, hne] at h
      have hb : (c != sep) = true := by simpa using hc
      rw [if_neg hc, ih (by simpa using h)]
      simp [List.takeWhile, List.dropWhile, hb]

theorem addSelector_of_count_one (m : RuleMap) (entry : Str)
    (h : entry.count '=' = 1) :
    addSelector m entry =
      RuleMap.set m (entry.takeWhile (fun c => c != '='))
        ((entry.dropWhile (fun c => c != '=')).drop 1) := by
  unfold addSelector
  rw [split_of_count_one '=' entry h]

theorem addSelector_of_count_ne_one (m : RuleMap) (entry : Str)
    (h : entry.count '=' ≠ 1) : addSelector m entry = m := by
  unfold addSelector
  have hl := split_length '=' entry
  split
  · rename_i name expr heq
    rw [heq] at hl
    simp at hl
    omega
  · rfl

theorem RuleMap.get_set (m : RuleMap) (key value k : Str) :
    RuleMap.get (RuleMap.set m key value) k =
      if key = k then some value else RuleMap.get m k := by
  induction m with
  | nil => simp [RuleMap.set, RuleMap.get]
  | cons kv rest ih =>
    obtain ⟨a, b⟩ := kv
    unfold RuleMap.set
    by_cases hak : a = key
    · subst hak
      simp only [if_true]
      unfold RuleMap.get
      by_cases h : a = k <;> simp [h]
    · rw [if_neg hak]
      unfold RuleMap.get
      rw [ih]
      by_cases h : a = k
      · subst h
        have : ¬ key = a := fun e => hak e.symm
        simp [this]
      · simp [h]

/-- Assignments keep the keys of a map pairwise different. -/
theorem RuleMap.set_keys_nodup (m : RuleMap) (key value : Str)
    (h : (m.map Prod.fst).Nodup) : ((RuleMap.set m key value).map Prod.fst).Nodup := by
  have hkeys : ∀ (m : RuleMap) (x : Str),
      x ∈ (RuleMap.set m key value).map Prod.fst → x = key ∨ x ∈ m.map Prod.fst := by
    intro m
    induction m with
    | nil => intro x hx; simpa [RuleMap.set] using hx
    | cons kv rest ih =>
      obtain ⟨a, b⟩ := kv
      intro x hx
      unfold RuleMap.set at hx
      by_cases hak : a = key
      · rw [if_pos hak] at hx
        right
        simpa using hx
      · rw [if_neg hak] at hx
        simp only [List.map_cons, List.mem_cons] at hx ⊢
        rcases hx with hx | hx
        · exact Or.inr (Or.inl hx)
        · rcases ih x hx with h1 | h1
          · exact Or.inl h1
          · exact Or.inr (Or.inr h1)
  induction m with
  | nil => simp [RuleMap.set]
  | cons kv rest ih =>
    obtain ⟨a, b⟩ := kv
    simp only [List.map_cons, List.nodup_cons] at h
    unfold RuleMap.set
    by_cases hak : a = key
    · rw [if_pos hak]
      simpa using h
    · rw [if_neg hak]
      simp only [List.map_cons, List.nodup_cons]
      refine ⟨?_, ih h.2⟩
      intro hmem
      rcases hkeys rest a hmem with h1 | h1
      · exact hak h1
      · exact h.1 h1

theorem addSelector_keys_nodup (m : RuleMap) (entry : Str)
    (h : (m.map Prod.fst).Nodup) : ((addSelector m entry).map Prod.fst).Nodup := by
  by_cases hc : entry.count '=' = 1
  · rw [addSelector_of_count_one m entry hc]
    exact RuleMap.set_keys_nodup m _ _ h
  · rw [addSelector_of_count_ne_one m entry hc]
    exact h

theorem foldl_addSelector_keys_nodup (entries : List Str) (m : RuleMap)
    (h : (m.map Prod.fst).Nodup) :
    ((entries.foldl addSelector m).map Prod.fst).Nodup := by
  induction entries generalizing m with
  | nil => simpa using h
  | cons e es ih => exact ih _ (addSelector_keys_nodup m e h)

theorem parseSelectors_keys_nodup (selectors : Str) :
    ((parseSelectors selectors).map Prod.fst).Nodup :=
  foldl_addSelector_keys_nodup _ [] (by simp)

/-- What the loop over the entries leaves bound to `name`. -/
theorem foldl_addSelector_get (entries : List Str) (name : Str) :
    RuleMap.get (entries.foldl addSelector []) name =
      ((entries.filter
          (fun entry => decide (entry.count '=' = 1 ∧
            entry.takeWhile (fun c => c != '=') = name))).getLast?).map
        (fun entry => (entry.dropWhile (fun c => c != '=')).drop 1) := by
  induction entries using List.reverseRecOn with
  | nil => simp [RuleMap.get]
  | append_singleton es e ih =>
    rw [List.foldl_append, List.filter_append]
    simp only [List.foldl_cons, List.foldl_nil]
    by_cases hc : e.count '=' = 1
    · rw [addSelector_of_count_one _ e hc, RuleMap.get_set]
      by_cases hn : e.takeWhile (fun c => c != '=') = name
      · simp [List.filter, hc, hn]
      · simp [List.filter, hc, hn, ih]
    · rw [addSelector_of_count_ne_one _ e hc, ih]
      simp [List.filter, hc]

/-! ## `fetchPage` -/

/-- A cache hit leaves the world as it is and makes no request. -/
theorem fetchPage_hit (E : Env) (url cacheDir : Str) (w : World) (entry : FsEntry)
    (h : w.files (cacheFile E url cacheDir) = some entry) :
    fetchPage E url cacheDir w = (readFile w (cacheFile E url cacheDir), w) := by
  unfold fetchPage
  rw [h]

/-- What a successful fetch that missed the cache has done. -/
theorem fetchPage_miss_ok (E : Env) (url cacheDir c : Str) (w : World)
    (hmiss : w.files (cacheFile E url cacheDir) = none)
    (hok : (fetchPage E url cacheDir w).1 = .ok c) :
    (fetchPage E url cacheDir w).2 =
      (World.store { w with requests := w.requests ++ [url] }
        (cacheFile E url cacheDir) (.file c)) := by
  unfold fetchPage at hok ⊢
  rw [hmiss] at hok ⊢
  simp only at hok ⊢
  cases hnet : E.httpGet w.requests.length url with
  | getError => simp [hnet] at hok
  | response statusCode body =>
    simp only [hnet] at hok ⊢
    by_cases hs : statusCode = 200
    · simp only [hs, ne_eq, not_true_eq_false, if_false] at hok ⊢
      cases body with
      | none => simp at hok
      | some bodyBytes =>
        simp only at hok ⊢
        unfold writeFile at hok ⊢
        simp only [List.length_append, List.length_singleton] at hok ⊢
        cases hwr : E.ioWriteFile (w.requests.length + 1) (cacheFile E url cacheDir) with
        | ok =>
          simp only [hwr] at hok ⊢
          injection hok with hok
          rw [hok]
        | failed left =>
          cases left <;> simp [hwr] at hok
    · simp [hs] at hok

/-- C4: when the cache holds nothing at the path of `url` and a first
`fetchPage url` returns the content `c`, a second `fetchPage url`, run in the
world the first one left, returns `c` again and leaves that world as it is, so
it sends no request; the first call sent exactly one request, to `url`. -/
theorem fetchPage_cache_idempotent (E : Env) (url cacheDir c : Str) (w : World)
    (hmiss : w.files (cacheFile E url cacheDir) = none)
    (hfirst : (fetchPage E url cacheDir w).1 = .ok c) :
    fetchPage E url cacheDir (fetchPage E url cacheDir w).2 =
        (.ok c, (fetchPage E url cacheDir w).2) ∧
      (fetchPage E url cacheDir (fetchPage E url cacheDir w).2).2.requests =
        (fetchPage E url cacheDir w).2.requests ∧
      (fetchPage E url cacheDir w).2.requests = w.requests ++ [url] := by
  have hw := fetchPage_miss_ok E url cacheDir c w hmiss hfirst
  have hfile : (fetchPage E url cacheDir w).2.files (cacheFile E url cacheDir) =
      some (.file c) := by
    rw [hw]
    simp [World.store]
  have hsecond := fetchPage_hit E url cacheDir _ _ hfile
  refine ⟨?_, ?_, ?_⟩
  · rw [hsecond]
    unfold readFile
    rw [hfile]
  · rw [hsecond]
  · rw [hw]
    rfl

/-- C4 on a sample site: one page behind `http://x/p1` and an empty cache. -/
theorem fetchPage_cache_idempotent_witness :
    fetchPage (sampleEnv (siteNet [("http://x/p1".toList, 200, "one".toList)]))
        "http://x/p1".toList "/tmp/c".toList
        (fetchPage (sampleEnv (siteNet [("http://x/p1".toList, 200, "one".toList)]))
          "http://x/p1".toList "/tmp/c".toList emptyWorld).2 =
      (.ok "one".toList,
        (fetchPage (sampleEnv (siteNet [("http://x/p1".toList, 200, "one".toList)]))
          "http://x/p1".toList "/tmp/c".toList emptyWorld).2) ∧
    (fetchPage (sampleEnv (siteNet [("http://x/p1".toList, 200, "one".toList)]))
        "http://x/p1".toList "/tmp/c".toList emptyWorld).2.requests =
      ["http://x/p1".toList] :=
  have h := fetchPage_cache_idempotent
    (sampleEnv (siteNet [("http://x/p1".toList, 200, "one".toList)]))
    "http://x/p1".toList "/tmp/c".toList "one".toList emptyWorld (by decide) (by decide)
  ⟨h.1, h.2.2⟩

/-- C5, the claim fails: the status code 204 is a 2xx code, the request, the
body and the cache write succeed, and `fetchPage` returns the status code
error. -/
theorem fetchPage_status_204_is_error :
    emptyWorld.files
        (cacheFile (sampleEnv (siteNet [("http://x/p1".toList, 204, "one".toList)]))
          "http://x/p1".toList "/tmp/c".toList) = none ∧
      (sampleEnv (siteNet [("http://x/p1".toList, 204, "one".toList)])).httpGet 0
        "http://x/p1".toList = .response 204 (some "one".toList) ∧
      (sampleEnv (siteNet [("http://x/p1".toList, 204, "one".toList)])).ioWriteFile 1
        (cacheFile (sampleEnv (siteNet [("http://x/p1".toList, 204, "one".toList)]))
          "http://x/p1".toList "/tmp/c".toList) = .ok ∧
      ((200 : Int) ≤ 204 ∧ (204 : Int) ≤ 299) ∧
      (fetchPage (sampleEnv (siteNet [("http://x/p1".toList, 204, "one".toList)]))
        "http://x/p1".toList "/tmp/c".toList emptyWorld).1 = .error (.statusCode 204) := by
  decide

/-- C5 as amended: for a URL that misses the cache, with a network request, a
body read and a cache write that succeed, `fetchPage` returns an error exactly
when the status code is not 200, and for the status code 200 it returns the
response body. -/
theorem fetchPage_status_200 (E : Env) (url cacheDir body : Str) (w : World)
    (statusCode : Int)
    (hmiss : w.files (cacheFile E url cacheDir) = none)
    (hget : E.httpGet w.requests.length url = .response statusCode (some body))
    (hwrite : E.ioWriteFile (w.requests.length + 1) (cacheFile E url cacheDir) = .ok) :
    ((∃ e, (fetchPage E url cacheDir w).1 = .error e) ↔ statusCode ≠ 200) ∧
      (statusCode = 200 → (fetchPage E url cacheDir w).1 = .ok body) := by
  unfold fetchPage
  rw [hmiss]
  simp only [hget]
  by_cases hs : statusCode = 200
  · subst hs
    simp only [ne_eq, not_true_eq_false, if_false]
    unfold writeFile
    simp only [List.length_append, List.length_singleton, hwrite]
    simp
  · simp [hs]

/-- C5 as amended, on a sample site that answers 200. -/
theorem fetchPage_status_200_witness :
    ((∃ e, (fetchPage (sampleEnv (siteNet [("http://x/p1".toList, 200, "one".toList)]))
        "http://x/p1".toList "/tmp/c".toList emptyWorld).1 = .error e) ↔ (200 : Int) ≠ 200) ∧
      ((200 : Int) = 200 →
        (fetchPage (sampleEnv (siteNet [("http://x/p1".toList, 200, "one".toList)]))
          "http://x/p1".toList "/tmp/c".toList emptyWorld).1 = .ok "one".toList) :=
  fetchPage_status_200 (sampleEnv (siteNet [("http://x/p1".toList, 200, "one".toList)]))
    "http://x/p1".toList "/tmp/c".toList "one".toList emptyWorld 200
    (by decide) (by decide) (by decide)

/-- C10, the code at the failing input: the URLs `http://x/a/b` and
`http://x/a_b` differ and get the same cache path; after `http://x/a/b` has
been fetched into an empty cache, `fetchPage "http://x/a_b"` returns the
content of `http://x/a/b` without any request, while the network serves
another body for it. -/
theorem fetchPage_cache_collision :
    "http://x/a/b".toList ≠ "http://x/a_b".toList ∧
      cacheFile (sampleEnv (siteNet [("http://x/a/b".toList, 200, "U".toList),
          ("http://x/a_b".toList, 200, "V".toList)])) "http://x/a/b".toList "/tmp/c".toList =
        cacheFile (sampleEnv (siteNet [("http://x/a/b".toList, 200, "U".toList),
          ("http://x/a_b".toList, 200, "V".toList)])) "http://x/a_b".toList "/tmp/c".toList ∧
      siteNet [("http://x/a/b".toList, 200, "U".toList),
          ("http://x/a_b".toList, 200, "V".toList)] 1 "http://x/a_b".toList =
        .response 200 (some "V".toList) ∧
      (fetchPage (sampleEnv (siteNet [("http://x/a/b".toList, 200, "U".toList),
          ("http://x/a_b".toList, 200, "V".toList)])) "http://x/a_b".toList "/tmp/c".toList
        (fetchPage (sampleEnv (siteNet [("http://x/a/b".toList, 200, "U".toList),
          ("http://x/a_b".toList, 200, "V".toList)])) "http://x/a/b".toList "/tmp/c".toList
          emptyWorld).2).1 = .ok "U".toList ∧
      (fetchPage (sampleEnv (siteNet [("http://x/a/b".toList, 200, "U".toList),
          ("http://x/a_b".toList, 200, "V".toList)])) "http://x/a_b".toList "/tmp/c".toList
        (fetchPage (sampleEnv (siteNet [("http://x/a/b".toList, 200, "U".toList),
          ("http://x/a_b".toList, 200, "V".toList)])) "http://x/a/b".toList "/tmp/c".toList
          emptyWorld).2).2.requests = ["http://x/a/b".toList] := by
  decide

/-! ## `parsePage` -/

theorem parsePage_eq_none (G : Goquery) (content : Str) (rules : RuleMap)
    (h : parsePage G content rules = none) : G.newDocument content = none := by
  unfold parsePage at h
  cases hd : G.newDocument content with
  | none => rfl
  | some doc => simp [hd] at h

theorem parsePage_of_doc (G : Goquery) (content : Str) (rules : RuleMap) (doc : G.Doc)
    (h : G.newDocument content = some doc) :
    parsePage G content rules = some (parseRules G doc rules Record.empty) := by
  unfold parsePage
  rw [h]

/-! ## `scrapeWebsite`: the loop -/

/-- One unfolding of the loop. -/
theorem scrapeLoop_succ (E : Env) (G : Goquery) (rules : RuleMap) (cacheDir : Str)
    (left : Nat) (url : Str) (allData : List Record) (fetches : List (Str × FetchResult))
    (w : World) :
    scrapeLoop E G rules cacheDir (left + 1) url allData fetches w =
      match fetchPage E url cacheDir w with
      | (.error e, w1) => ⟨some allData, fetches ++ [(url, .error e)], w1⟩
      | (.ok content, w1) =>
        match parsePage G content rules with
        | none => ⟨none, fetches ++ [(url, .ok content)], w1⟩
        | some data =>
          match G.newDocument content with
          | none => ⟨some (allData ++ [data]), fetches ++ [(url, .ok content)], w1⟩
          | some doc =>
            if attrOr G (G.find doc "a.next".toList) "href".toList [] = [] then
              ⟨some (allData ++ [data]), fetches ++ [(url, .ok content)], w1⟩
            else
              scrapeLoop E G rules cacheDir left
                (attrOr G (G.find doc "a.next".toList) "href".toList [])
                (allData ++ [data]) (fetches ++ [(url, .ok content)]) w1 := by
  rfl

/-- The loop makes at most `left` further calls of `fetchPage`, adds at most
`left` records, and ends the process only on a page that does not parse. -/
theorem scrapeLoop_bounds (E : Env) (G : Goquery) (rules : RuleMap) (cacheDir : Str) :
    ∀ (left : Nat) (url : Str) (allData : List Record)
      (fetches : List (Str × FetchResult)) (w : World),
      (scrapeLoop E G rules cacheDir left url allData fetches w).fetches.length ≤
          fetches.length + left ∧
        (∀ recs, (scrapeLoop E G rules cacheDir left url allData fetches w).result = some recs →
          recs.length ≤ allData.length + left) ∧
        ((scrapeLoop E G rules cacheDir left url allData fetches w).result = none →
          ∃ u c, (u, Except.ok c) ∈
              (scrapeLoop E G rules cacheDir left url allData fetches w).fetches ∧
            G.newDocument c = none) := by
  intro left
  induction left with
  | zero =>
    intro url allData fetches w
    simp [scrapeLoop]
  | succ left ih =>
    intro url allData fetches w
    rw [scrapeLoop_succ]
    rcases hf : fetchPage E url cacheDir w with ⟨res, w1⟩
    cases res with
    | error e =>
      simp only [List.length_append, List.length_singleton]
      refine ⟨by omega, ?_, ?_⟩
      · intro recs h
        injection h with h
        subst h
        omega
      · intro h
        cases h
    | ok content =>
      simp only
      cases hp : parsePage G content rules with
      | none =>
        simp only [List.length_append, List.length_singleton]
        refine ⟨by omega, ?_, ?_⟩
        · intro recs h
          cases h
        · intro _
          exact ⟨url, content, by simp, parsePage_eq_none G content rules hp⟩
      | some data =>
        simp only
        cases hd : G.newDocument content with
        | none =>
          simp only [List.length_append, List.length_singleton]
          refine ⟨by omega, ?_, ?_⟩
          · intro recs h
            injection h with h
            subst h
            simp
          · intro h
            cases h
        | some doc =>
          simp only
          by_cases hn : attrOr G (G.find doc "a.next".toList) "href".toList [] = []
          · rw [if_pos hn]
            simp only [List.length_append, List.length_singleton]
            refine ⟨by omega, ?_, ?_⟩
            · intro recs h
              injection h with h
              subst h
              simp
            · intro h
              cases h
          · rw [if_neg hn]
            obtain ⟨h1, h2, h3⟩ := ih (attrOr G (G.find doc "a.next".toList) "href".toList [])
              (allData ++ [data]) (fetches ++ [(url, .ok content)]) w1
            refine ⟨?_, ?_, h3⟩
            · simp only [List.length_append, List.length_singleton] at h1
              omega
            · intro recs h
              have := h2 recs h
              simp only [List.length_append, List.length_singleton] at this
              omega

/-- C1: for every page limit `N`, also `N ≤ 0`, and every network, cache,
goquery and rule map, `scrapeWebsite` calls `fetchPage` at most `max N 0`
times and the list it returns has at most `max N 0` records; it fails to
return only when `parsePage` ends the process on a fetched page that does not
parse. -/
theorem scrapeWebsite_page_limit (E : Env) (G : Goquery) (baseURL startPage : Str)
    (rules : RuleMap) (N : Int) (cacheDir : Str) (w : World) :
    ((scrapeWebsite E G baseURL startPage rules N cacheDir w).fetches.length : Int) ≤ max N 0 ∧
      (∀ recs, (scrapeWebsite E G baseURL startPage rules N cacheDir w).result = some recs →
        (recs.length : Int) ≤ max N 0) ∧
      ((scrapeWebsite E G baseURL startPage rules N cacheDir w).result = none →
        ∃ u c, (u, Except.ok c) ∈
            (scrapeWebsite E G baseURL startPage rules N cacheDir w).fetches ∧
          G.newDocument c = none) := by
  obtain ⟨h1, h2, h3⟩ :=
    scrapeLoop_bounds E G rules cacheDir N.toNat (baseURL ++ startPage) [] [] w
  have hN : ((N.toNat : Nat) : Int) = max N 0 := Int.toNat_eq_max N
  unfold scrapeWebsite
  refine ⟨?_, ?_, h3⟩
  · rw [← hN]
    simp only [List.length_nil, Nat.zero_add] at h1
    exact_mod_cast h1
  · intro recs h
    have := h2 recs h
    rw [← hN]
    simp only [List.length_nil, Nat.zero_add] at this
    exact_mod_cast this

/-- The loop only adds calls at the end of the list of calls made before. -/
theorem scrapeLoop_fetches_extend (E : Env) (G : Goquery) (rules : RuleMap) (cacheDir : Str) :
    ∀ (left : Nat) (url : Str) (allData : List Record)
      (fetches : List (Str × FetchResult)) (w : World),
      ∃ more, (scrapeLoop E G rules cacheDir left url allData fetches w).fetches =
        fetches ++ more := by
  intro left
  induction left with
  | zero =>
    intro url allData fetches w
    exact ⟨[], by simp [scrapeLoop]⟩
  | succ left ih =>
    intro url allData fetches w
    rw [scrapeLoop_succ]
    rcases hf : fetchPage E url cacheDir w with ⟨res, w1⟩
    cases res with
    | error e => exact ⟨_, rfl⟩
    | ok content =>
      simp only
      cases hp : parsePage G content rules with
      | none => exact ⟨_, rfl⟩
      | some data =>
        simp only
        cases hd : G.newDocument content with
        | none => exact ⟨_, rfl⟩
        | some doc =>
          simp only
          by_cases hn : attrOr G (G.find doc "a.next".toList) "href".toList [] = []
          · rw [if_pos hn]
            exact ⟨_, rfl⟩
          · rw [if_neg hn]
            obtain ⟨more, hmore⟩ := ih (attrOr G (G.find doc "a.next".toList) "href".toList [])
              (allData ++ [data]) (fetches ++ [(url, .ok content)]) w1
            exact ⟨(url, .ok content) :: more, by rw [hmore]; simp⟩

/-- A selection whose elements have no `href`, or an empty one, gives the
empty next link. -/
theorem attrOr_href_empty (G : Goquery) (selection : List G.Node)
    (h : ∀ n ∈ selection, G.attr n "href".toList = none ∨ G.attr n "href".toList = some []) :
    attrOr G selection "href".toList [] = [] := by
  cases selection with
  | nil => rfl
  | cons n rest =>
    show (G.attr n "href".toList).getD [] = []
    rcases h n (List.mem_cons_self _ _) with h1 | h1 <;> rw [h1] <;> rfl

/-- The loop stops at a fetched page without a next link: when the call
number `j` (from 0) returned a content that parses and has no `a.next`
element with a non-empty `href`, it is the last call, and the loop returns
`j + 1` records, the last one parsed from that content. -/
theorem scrapeLoop_stops (E : Env) (G : Goquery) (rules : RuleMap) (cacheDir : Str)
    (j : Nat) (u c : Str) (doc : G.Doc)
    (hdoc : G.newDocument c = some doc)
    (hnext : ∀ n ∈ G.find doc "a.next".toList,
      G.attr n "href".toList = none ∨ G.attr n "href".toList = some []) :
    ∀ (left : Nat) (url : Str) (allData : List Record)
      (fetches : List (Str × FetchResult)) (w : World),
      allData.length = fetches.length → fetches.length ≤ j →
      (scrapeLoop E G rules cacheDir left url allData fetches w).fetches[j]? =
        some (u, .ok c) →
      (scrapeLoop E G rules cacheDir left url allData fetches w).fetches.length = j + 1 ∧
        ∃ recs data,
          (scrapeLoop E G rules cacheDir left url allData fetches w).result = some recs ∧
          recs.length = j + 1 ∧ parsePage G c rules = some data ∧
          recs.getLast? = some data := by
  intro left
  induction left with
  | zero =>
    intro url allData fetches w _ hle hj
    simp only [scrapeLoop] at hj
    have : j < fetches.length := by
      by_contra hcon
      rw [List.getElem?_eq_none (by omega)] at hj
      cases hj
    omega
  | succ left ih =>
    intro url allData fetches w hlen hle hj
    rw [scrapeLoop_succ] at hj ⊢
    -- the entry `j` of a list that ends right after `fetches`
    have hlast : ∀ (res : FetchResult),
        (fetches ++ [(url, res)])[j]? = some (u, Except.ok c) →
        j = fetches.length ∧ url = u ∧ res = .ok c := by
      intro res h
      have hjlt : j < (fetches ++ [(url, res)]).length := by
        by_contra hcon
        rw [List.getElem?_eq_none (by omega)] at h
        cases h
      simp only [List.length_append, List.length_singleton] at hjlt
      have hjeq : j = fetches.length := by omega
      subst hjeq
      simp at h
      exact ⟨rfl, h.1, h.2⟩
    rcases hf : fetchPage E url cacheDir w with ⟨res, w1⟩
    rw [hf] at hj
    cases res with
    | error e =>
      simp only at hj
      obtain ⟨_, _, h3⟩ := hlast _ hj
      cases h3
    | ok content =>
      simp only at hj ⊢
      cases hp : parsePage G content rules with
      | none =>
        rw [hp] at hj
        simp only at hj
        obtain ⟨_, _, h3⟩ := hlast _ hj
        injection h3 with h3
        subst h3
        rw [parsePage_eq_none G content rules hp] at hdoc
        cases hdoc
      | some data =>
        rw [hp] at hj
        simp only at hj ⊢
        cases hd : G.newDocument content with
        | none =>
          rw [hd] at hj
          simp only at hj
          obtain ⟨_, _, h3⟩ := hlast _ hj
          injection h3 with h3
          subst h3
          rw [hd] at hdoc
          cases hdoc
        | some doc1 =>
          rw [hd] at hj
          simp only at hj ⊢
          by_cases hn : attrOr G (G.find doc1 "a.next".toList) "href".toList [] = []
          · rw [if_pos hn] at hj ⊢
            obtain ⟨h1, _, h3⟩ := hlast _ hj
            injection h3 with h3
            subst h3
            refine ⟨by simp [h1], allData ++ [data], data, rfl, by simp [h1, hlen], hp, by simp⟩
          · rw [if_neg hn] at hj ⊢
            by_cases hjeq : j = fetches.length
            · exfalso
              obtain ⟨more, hmore⟩ := scrapeLoop_fetches_extend E G rules cacheDir left
                (attrOr G (G.find doc1 "a.next".toList) "href".toList [])
                (allData ++ [data]) (fetches ++ [(url, .ok content)]) w1
              rw [hmore, List.append_assoc] at hj
              subst hjeq
              rw [List.getElem?_append_right (le_refl _)] at hj
              simp only [Nat.sub_self, List.singleton_append, List.getElem?_cons_zero,
                Option.some.injEq, Prod.mk.injEq, Except.ok.injEq] at hj
              obtain ⟨_, h3⟩ := hj
              subst h3
              rw [hd] at hdoc
              injection hdoc with hdoc
              subst hdoc
              exact hn (attrOr_href_empty G _ hnext)
            · exact ih _ _ _ _ (by simp [hlen]) (by simp; omega) hj

/-- C8: when the `k`-th call of `fetchPage` (`k` counted from 1) returned a
content that parses and has no `a.next` element with a non-empty `href`,
`scrapeWebsite` makes exactly `k` calls, `k` is at most the page limit, and it
returns exactly `k` records, the last one being `parsePage` of that content. -/
theorem scrapeWebsite_stops_without_next (E : Env) (G : Goquery) (baseURL startPage : Str)
    (rules : RuleMap) (N : Int) (cacheDir : Str) (w : World)
    (k : Nat) (u c : Str) (doc : G.Doc)
    (hk : 1 ≤ k)
    (hfetch : (scrapeWebsite E G baseURL startPage rules N cacheDir w).fetches[k - 1]? =
      some (u, .ok c))
    (hdoc : G.newDocument c = some doc)
    (hnext : ∀ n ∈ G.find doc "a.next".toList,
      G.attr n "href".toList = none ∨ G.attr n "href".toList = some []) :
    (scrapeWebsite E G baseURL startPage rules N cacheDir w).fetches.length = k ∧
      (k : Int) ≤ N ∧
      ∃ recs data,
        (scrapeWebsite E G baseURL startPage rules N cacheDir w).result = some recs ∧
        recs.length = k ∧ parsePage G c rules = some data ∧ recs.getLast? = some data := by
  have hmain := scrapeLoop_stops E G rules cacheDir (k - 1) u c doc hdoc hnext N.toNat
    (baseURL ++ startPage) [] [] w rfl (by simp) hfetch
  have hk1 : k - 1 + 1 = k := by omega
  rw [hk1] at hmain
  obtain ⟨hlen, hrest⟩ := hmain
  refine ⟨hlen, ?_, hrest⟩
  have hb := (scrapeLoop_bounds E G rules cacheDir N.toNat (baseURL ++ startPage) [] [] w).1
  rw [hlen] at hb
  simp only [List.length_nil, Nat.zero_add] at hb
  omega

/-- C8 on the sample site with the page limit 5: the second call returns the
page without a next link and the run ends there with two records. -/
theorem scrapeWebsite_stops_without_next_witness :
    (scrapeWebsite (sampleEnv sampleSite) (sampleGoquery samplePages) "http://x/".toList
        "p1".toList (parseSelectors "title=.t,price=.p".toList) 5 "/tmp/c".toList
        emptyWorld).fetches.length = 2 ∧
      ((2 : Nat) : Int) ≤ 5 ∧
      ∃ recs data,
        (scrapeWebsite (sampleEnv sampleSite) (sampleGoquery samplePages) "http://x/".toList
          "p1".toList (parseSelectors "title=.t,price=.p".toList) 5 "/tmp/c".toList
          emptyWorld).result = some recs ∧
        recs.length = 2 ∧
        parsePage (sampleGoquery samplePages) "P2".toList
          (parseSelectors "title=.t,price=.p".toList) = some data ∧
        recs.getLast? = some data :=
  scrapeWebsite_stops_without_next (sampleEnv sampleSite) (sampleGoquery samplePages)
    "http://x/".toList "p1".toList (parseSelectors "title=.t,price=.p".toList) 5
    "/tmp/c".toList emptyWorld 2 "http://x/p2".toList "P2".toList
    [⟨[".t".toList], "C".toList, none⟩, ⟨[".p".toList], "3".toList, none⟩]
    (by decide) (by decide) rfl (by decide)

/-! ## `parsePage`: the record it builds -/

theorem Record.append_apply (data : Record) (key v k : Str) :
    Record.append data key v k =
      if k = key then some (Record.values data key ++ [v]) else data k := rfl

theorem Record.values_append_self (data : Record) (key v : Str) :
    Record.values (Record.append data key v) key = Record.values data key ++ [v] := by
  simp [Record.values, Record.append]

/-- What `Each` leaves under every key. -/
theorem eachAppend_apply (G : Goquery) (key : Str) (elements : List G.Node)
    (data : Record) (k : Str) :
    eachAppend G key elements data k =
      if k = key then
        (if elements.isEmpty then data k
         else some (Record.values data key ++ elements.map G.text))
      else data k := by
  induction elements generalizing data with
  | nil => simp [eachAppend]
  | cons e es ih =>
    have hstep : eachAppend G key (e :: es) data =
        eachAppend G key es (Record.append data key (G.text e)) := rfl
    rw [hstep, ih]
    by_cases hk : k = key
    · subst hk
      simp only [if_true, Record.values_append_self, Record.append_apply]
      cases es with
      | nil => simp
      | cons e2 es2 => simp
    · simp [hk, Record.append_apply]

theorem RuleMap.get_eq_none_of_not_mem (m : RuleMap) (k : Str)
    (h : k ∉ m.map Prod.fst) : RuleMap.get m k = none := by
  induction m with
  | nil => rfl
  | cons kv rest ih =>
    obtain ⟨a, b⟩ := kv
    simp only [List.map_cons, List.mem_cons, not_or] at h
    unfold RuleMap.get
    rw [if_neg (fun e => h.1 e.symm)]
    exact ih h.2

/-- What `parsePage` leaves under every key: a key is present exactly when
its selector matches an element, and then holds the texts of the matches in
document order. -/
theorem parseRules_apply (G : Goquery) (doc : G.Doc) (rules : RuleMap)
    (hnodup : (rules.map Prod.fst).Nodup) (data : Record) (k : Str) :
    parseRules G doc rules data k =
      match RuleMap.get rules k with
      | none => data k
      | some selector =>
        if (G.find doc selector).isEmpty then data k
        else some (Record.values data k ++ (G.find doc selector).map G.text) := by
  induction rules generalizing data with
  | nil => rfl
  | cons kv rest ih =>
    obtain ⟨a, b⟩ := kv
    simp only [List.map_cons, List.nodup_cons] at hnodup
    have hstep : parseRules G doc ((a, b) :: rest) data =
        parseRules G doc rest (eachAppend G a (G.find doc b) data) := rfl
    rw [hstep, ih hnodup.2]
    by_cases hak : a = k
    · subst hak
      rw [RuleMap.get_eq_none_of_not_mem rest a hnodup.1]
      simp only [RuleMap.get, if_true]
      rw [eachAppend_apply]
      simp
    · have hka : ¬ k = a := fun e => hak e.symm
      have hat : Record.values (eachAppend G a (G.find doc b) data) k = Record.values data k := by
        unfold Record.values
        rw [eachAppend_apply, if_neg hka]
      simp only [RuleMap.get, if_neg hak]
      rw [hat, eachAppend_apply, if_neg hka]

theorem RuleMap.get_eq_some_iff (m : RuleMap) (hnodup : (m.map Prod.fst).Nodup)
    (k v : Str) : RuleMap.get m k = some v ↔ (k, v) ∈ m := by
  induction m with
  | nil => simp [RuleMap.get]
  | cons kv rest ih =>
    obtain ⟨a, b⟩ := kv
    simp only [List.map_cons, List.nodup_cons] at hnodup
    unfold RuleMap.get
    by_cases hak : a = k
    · subst hak
      simp only [if_true, Option.some.injEq, List.mem_cons, Prod.mk.injEq, true_and]
      constructor
      · intro h
        exact Or.inl h.symm
      · intro h
        rcases h with h | h
        · exact h.symm
        · exact absurd (List.mem_map_of_mem Prod.fst h) hnodup.1
    · rw [if_neg hak, ih hnodup.2]
      simp only [List.mem_cons, Prod.mk.injEq]
      constructor
      · intro h
        exact Or.inr h
      · intro h
        rcases h with h | h
        · exact absurd h.1.symm hak
        · exact h

/-- The order in which `range` visits the selector map does not change the
record `parsePage` builds. -/
theorem parseRules_perm (G : Goquery) (doc : G.Doc) (rules rules2 : RuleMap)
    (hnodup : (rules.map Prod.fst).Nodup) (hperm : rules.Perm rules2) (data : Record) :
    parseRules G doc rules data = parseRules G doc rules2 data := by
  have hnodup2 : (rules2.map Prod.fst).Nodup := (hperm.map Prod.fst).nodup_iff.mp hnodup
  have hget : ∀ k, RuleMap.get rules k = RuleMap.get rules2 k := by
    intro k
    cases h2 : RuleMap.get rules2 k with
    | some v =>
      rw [RuleMap.get_eq_some_iff rules hnodup]
      exact hperm.mem_iff.mpr ((RuleMap.get_eq_some_iff rules2 hnodup2 k v).mp h2)
    | none =>
      cases h1 : RuleMap.get rules k with
      | none => rfl
      | some v =>
        have := hperm.mem_iff.mp ((RuleMap.get_eq_some_iff rules hnodup k v).mp h1)
        rw [(RuleMap.get_eq_some_iff rules2 hnodup2 k v).mpr this] at h2
        cases h2
  funext k
  rw [parseRules_apply G doc rules hnodup, parseRules_apply G doc rules2 hnodup2, hget k]

/-- A field whose selector matches holds the texts of the matches. -/
theorem parseRules_field (G : Goquery) (doc : G.Doc) (rules : RuleMap)
    (hnodup : (rules.map Prod.fst).Nodup) (key selector : Str) (texts : List Str)
    (hget : RuleMap.get rules key = some selector)
    (htexts : (G.find doc selector).map G.text = texts) (hne : texts ≠ []) :
    parseRules G doc rules Record.empty key = some texts := by
  rw [parseRules_apply G doc rules hnodup, hget]
  have hfind : (G.find doc selector).isEmpty = false := by
    cases hf : G.find doc selector with
    | nil =>
      rw [hf] at htexts
      exact absurd htexts.symm hne
    | cons e es => rfl
  simp only [hfind, htexts]
  simp [Record.values, Record.empty]

/-- A key without a selector is absent from the record. -/
theorem parseRules_absent (G : Goquery) (doc : G.Doc) (rules : RuleMap)
    (hnodup : (rules.map Prod.fst).Nodup) (key : Str)
    (hget : RuleMap.get rules key = none) :
    parseRules G doc rules Record.empty key = none := by
  rw [parseRules_apply G doc rules hnodup, hget]
  rfl

/-- One iteration of the loop on a page that was fetched and parses. -/
theorem scrapeLoop_step (E : Env) (G : Goquery) (rules : RuleMap) (cacheDir : Str)
    (left : Nat) (url : Str) (allData : List Record) (fetches : List (Str × FetchResult))
    (w w1 : World) (content : Str) (doc : G.Doc)
    (hf : fetchPage E url cacheDir w = (.ok content, w1))
    (hd : G.newDocument content = some doc) :
    scrapeLoop E G rules cacheDir (left + 1) url allData fetches w =
      if attrOr G (G.find doc "a.next".toList) "href".toList [] = [] then
        ⟨some (allData ++ [parseRules G doc rules Record.empty]),
          fetches ++ [(url, .ok content)], w1⟩
      else
        scrapeLoop E G rules cacheDir left
          (attrOr G (G.find doc "a.next".toList) "href".toList [])
          (allData ++ [parseRules G doc rules Record.empty])
          (fetches ++ [(url, .ok content)]) w1 := by
  rw [scrapeLoop_succ, hf]
  simp only [parsePage_of_doc G content rules doc hd, hd]

/-- The two-page run when the next link can be fetched as it stands: base URL
`http://x/`, start page `p1`, selectors `title=.t,price=.p`, page limit 2.
The fetch of `http://x/p1` returns a page whose `.t` elements read `A`, `B`,
whose `.p` elements read `1`, `2` and whose first `a.next` element has the
non-empty target `href`; the fetch of `href`, the target taken as it stands,
returns a page whose `.t` element reads `C` and whose `.p` element reads `3`.
Then `scrapeWebsite` makes exactly these two calls of `fetchPage` and returns
exactly two records: the first with title `A`, `B` and price `1`, `2`, the
second with title `C` and price `3`, and neither has another key. -/
theorem scrapeWebsite_two_pages (E : Env) (G : Goquery) (cacheDir : Str) (w : World)
    (c1 c2 href : Str) (d1 d2 : G.Doc) (a : G.Node) (others : List G.Node)
    (hfetch1 : (fetchPage E "http://x/p1".toList cacheDir w).1 = .ok c1)
    (hdoc1 : G.newDocument c1 = some d1)
    (htitle1 : (G.find d1 ".t".toList).map G.text = ["A".toList, "B".toList])
    (hprice1 : (G.find d1 ".p".toList).map G.text = ["1".toList, "2".toList])
    (hnext1 : G.find d1 "a.next".toList = a :: others)
    (hhref : G.attr a "href".toList = some href)
    (hne : href ≠ [])
    (hfetch2 : (fetchPage E href cacheDir
      (fetchPage E "http://x/p1".toList cacheDir w).2).1 = .ok c2)
    (hdoc2 : G.newDocument c2 = some d2)
    (htitle2 : (G.find d2 ".t".toList).map G.text = ["C".toList])
    (hprice2 : (G.find d2 ".p".toList).map G.text = ["3".toList]) :
    (scrapeWebsite E G "http://x/".toList "p1".toList
        (parseSelectors "title=.t,price=.p".toList) 2 cacheDir w).fetches =
      [("http://x/p1".toList, .ok c1), (href, .ok c2)] ∧
    ∃ r0 r1,
      (scrapeWebsite E G "http://x/".toList "p1".toList
        (parseSelectors "title=.t,price=.p".toList) 2 cacheDir w).result = some [r0, r1] ∧
      r0 "title".toList = some ["A".toList, "B".toList] ∧
      r0 "price".toList = some ["1".toList, "2".toList] ∧
      r1 "title".toList = some ["C".toList] ∧
      r1 "price".toList = some ["3".toList] ∧
      ∀ key, key ≠ "title".toList → key ≠ "price".toList → r0 key = none ∧ r1 key = none := by
  have hnodup := parseSelectors_keys_nodup "title=.t,price=.p".toList
  have hrules : parseSelectors "title=.t,price=.p".toList =
      [("title".toList, ".t".toList), ("price".toList, ".p".toList)] := by decide
  have hgt : RuleMap.get (parseSelectors "title=.t,price=.p".toList) "title".toList =
      some ".t".toList := by decide
  have hgp : RuleMap.get (parseSelectors "title=.t,price=.p".toList) "price".toList =
      some ".p".toList := by decide
  have hgo : ∀ key, key ≠ "title".toList → key ≠ "price".toList →
      RuleMap.get (parseSelectors "title=.t,price=.p".toList) key = none := by
    intro key h1 h2
    rw [hrules]
    unfold RuleMap.get
    rw [if_neg (fun e => h1 e.symm)]
    unfold RuleMap.get
    rw [if_neg (fun e => h2 e.symm)]
    rfl
  have hattr : attrOr G (G.find d1 "a.next".toList) "href".toList [] = href := by
    rw [hnext1]
    show (G.attr a "href".toList).getD [] = href
    rw [hhref]
    rfl
  rcases hf1 : fetchPage E "http://x/p1".toList cacheDir w with ⟨res1, w1⟩
  rw [hf1] at hfetch1 hfetch2
  simp only at hfetch1 hfetch2
  subst hfetch1
  rcases hf2 : fetchPage E href cacheDir w1 with ⟨res2, w2⟩
  rw [hf2] at hfetch2
  simp only at hfetch2
  subst hfetch2
  have hrun : scrapeWebsite E G "http://x/".toList "p1".toList
      (parseSelectors "title=.t,price=.p".toList) 2 cacheDir w =
      ⟨some [parseRules G d1 (parseSelectors "title=.t,price=.p".toList) Record.empty,
          parseRules G d2 (parseSelectors "title=.t,price=.p".toList) Record.empty],
        [("http://x/p1".toList, .ok c1), (href, .ok c2)], w2⟩ := by
    show scrapeLoop E G (parseSelectors "title=.t,price=.p".toList) cacheDir (1 + 1)
      "http://x/p1".toList [] [] w = _
    rw [scrapeLoop_step E G _ cacheDir 1 _ [] [] w w1 c1 d1 hf1 hdoc1, hattr, if_neg hne]
    rw [scrapeLoop_step E G _ cacheDir 0 _ _ _ w1 w2 c2 d2 hf2 hdoc2]
    split_ifs <;> simp [scrapeLoop]
  rw [hrun]
  refine ⟨rfl, _, _, rfl, ?_, ?_, ?_, ?_, ?_⟩
  · exact parseRules_field G d1 _ hnodup _ _ _ hgt htitle1 (by simp)
  · exact parseRules_field G d1 _ hnodup _ _ _ hgp hprice1 (by simp)
  · exact parseRules_field G d2 _ hnodup _ _ _ hgt htitle2 (by simp)
  · exact parseRules_field G d2 _ hnodup _ _ _ hgp hprice2 (by simp)
  · intro key h1 h2
    exact ⟨parseRules_absent G d1 _ hnodup key (hgo key h1 h2),
      parseRules_absent G d2 _ hnodup key (hgo key h1 h2)⟩

/-- The two-page run on the sample site whose next link is the full URL
`http://x/p2`, started with an empty cache. -/
theorem scrapeWebsite_two_pages_witness :
    (scrapeWebsite (sampleEnv sampleSite) (sampleGoquery samplePages) "http://x/".toList
        "p1".toList (parseSelectors "title=.t,price=.p".toList) 2 "/tmp/c".toList
        emptyWorld).fetches =
      [("http://x/p1".toList, .ok "P1".toList), ("http://x/p2".toList, .ok "P2".toList)] ∧
    ∃ r0 r1,
      (scrapeWebsite (sampleEnv sampleSite) (sampleGoquery samplePages) "http://x/".toList
        "p1".toList (parseSelectors "title=.t,price=.p".toList) 2 "/tmp/c".toList
        emptyWorld).result = some [r0, r1] ∧
      r0 "title".toList = some ["A".toList, "B".toList] ∧
      r0 "price".toList = some ["1".toList, "2".toList] ∧
      r1 "title".toList = some ["C".toList] ∧
      r1 "price".toList = some ["3".toList] ∧
      ∀ key, key ≠ "title".toList → key ≠ "price".toList → r0 key = none ∧ r1 key = none :=
  scrapeWebsite_two_pages (sampleEnv sampleSite) (sampleGoquery samplePages) "/tmp/c".toList
    emptyWorld "P1".toList "P2".toList "http://x/p2".toList
    [⟨[".t".toList], "A".toList, none⟩, ⟨[".p".toList], "1".toList, none⟩,
     ⟨[".t".toList], "B".toList, none⟩, ⟨[".p".toList], "2".toList, none⟩,
     ⟨["a.next".toList], "next".toList, some "http://x/p2".toList⟩]
    [⟨[".t".toList], "C".toList, none⟩, ⟨[".p".toList], "3".toList, none⟩]
    ⟨["a.next".toList], "next".toList, some "http://x/p2".toList⟩ []
    (by decide) rfl (by decide) (by decide) rfl (by decide) (by decide) (by decide) rfl
    (by decide) (by decide)

/-- C2, the code at the failing input: base URL `http://x/`, start page `p1`,
selectors `title=.t,price=.p`, page limit 2, empty cache.  The site serves
page 1 at `http://x/p1` and page 2 at `http://x/p2`, and the next link of
page 1 is written `p2`, the way the start page is.  The first URL is
`baseURL + startPage`, but the loop sets `url = nextPage` without the base
URL: the second call of `fetchPage` asks for `p2`, a URL without a scheme, on
which `http.Get` returns an error.  The loop breaks and `scrapeWebsite`
returns one record, the one of page 1, not two. -/
theorem scrapeWebsite_relative_next_link :
    sampleSite 0 "http://x/p1".toList = .response 200 (some "P1".toList) ∧
      sampleSite 1 "http://x/p2".toList = .response 200 (some "P2".toList) ∧
      ((sampleGoquery relativePages).newDocument "P1".toList).map
          (fun doc => attrOr (sampleGoquery relativePages)
            ((sampleGoquery relativePages).find doc "a.next".toList) "href".toList []) =
        some "p2".toList ∧
      sampleSite 1 "p2".toList = .getError ∧
      (scrapeWebsite (sampleEnv sampleSite) (sampleGoquery relativePages) "http://x/".toList
          "p1".toList (parseSelectors "title=.t,price=.p".toList) 2 "/tmp/c".toList
          emptyWorld).fetches =
        [("http://x/p1".toList, .ok "P1".toList), ("p2".toList, .error .httpGet)] ∧
      (scrapeWebsite (sampleEnv sampleSite) (sampleGoquery relativePages) "http://x/".toList
          "p1".toList (parseSelectors "title=.t,price=.p".toList) 2 "/tmp/c".toList
          emptyWorld).world.requests = ["http://x/p1".toList, "p2".toList] ∧
      ((scrapeWebsite (sampleEnv sampleSite) (sampleGoquery relativePages) "http://x/".toList
          "p1".toList (parseSelectors "title=.t,price=.p".toList) 2 "/tmp/c".toList
          emptyWorld).result.map List.length) = some 1 ∧
      ((scrapeWebsite (sampleEnv sampleSite) (sampleGoquery relativePages) "http://x/".toList
          "p1".toList (parseSelectors "title=.t,price=.p".toList) 2 "/tmp/c".toList
          emptyWorld).result.map
            (fun recs => recs.map (fun r => (r "title".toList, r "price".toList)))) =
        some [(some ["A".toList, "B".toList], some ["1".toList, "2".toList])] := by
  refine ⟨by decide, by decide, by decide, by decide, by decide, by decide, by decide,
    by decide⟩

/-! ## `saveToCSV` -/

/-- The row loop, started at index `i` with `left` iterations to go, when the
writes succeed: it pairs the titles and prices from `i` on, and it stops with
an out-of-range failure at the first index that has no price. -/
theorem writeRows_spec (E : Env) (title price : List Str) :
    ∀ (left i : Nat) (rows : List (List Str)),
      i + left = title.length → i ≤ price.length →
      (∀ k, 1 ≤ k → k ≤ min title.length price.length → E.csvWrite k = true) →
      writeRows E title price left i rows =
        ⟨if title.length ≤ price.length then .ok
          else .indexOutOfRange price.length price.length,
         some (rows ++ List.zipWith csvRow (title.drop i) (price.drop i))⟩ := by
  intro left
  induction left with
  | zero =>
    intro i rows hi hip _
    have hdrop : title.drop i = [] := List.drop_eq_nil_of_le (by omega)
    have hle : title.length ≤ price.length := by omega
    unfold writeRows
    rw [hdrop, if_pos hle]
    simp
  | succ left ih =>
    intro i rows hi hip hw
    have hit : i < title.length := by omega
    unfold writeRows
    rw [List.getElem?_eq_getElem hit]
    simp only
    by_cases hlt : i < price.length
    · rw [List.getElem?_eq_getElem hlt]
      simp only
      rw [if_pos (hw (i + 1) (by omega) (by omega))]
      rw [ih (i + 1) _ (by omega) (by omega) hw]
      rw [List.drop_eq_getElem_cons hit, List.drop_eq_getElem_cons hlt]
      simp only [csvRow, List.zipWith_cons_cons, List.append_assoc, List.singleton_append]
    · have hieq : i = price.length := by omega
      have hnot : ¬ title.length ≤ price.length := by omega
      rw [List.getElem?_eq_none (by omega), if_neg hnot]
      simp only
      rw [List.drop_eq_nil_of_le (by omega : price.length ≤ i)]
      simp [hieq]

/-- What `saveToCSV` does when the file is created and the writes succeed. -/
theorem saveToCSV_spec (E : Env) (filename : Str) (data : Record)
    (hcreate : E.create filename = true)
    (hwrite : ∀ k, k ≤ min (Record.values data "title".toList).length
      (Record.values data "price".toList).length → E.csvWrite k = true) :
    saveToCSV E filename data =
      ⟨if (Record.values data "title".toList).length ≤ (Record.values data "price".toList).length
          then .ok
          else .indexOutOfRange (Record.values data "price".toList).length
            (Record.values data "price".toList).length,
        some (["Title".toList, "Price".toList] ::
          List.zipWith csvRow (Record.values data "title".toList)
            (Record.values data "price".toList))⟩ := by
  unfold saveToCSV
  rw [if_pos hcreate, if_pos (hwrite 0 (Nat.zero_le _))]
  rw [writeRows_spec E _ _ _ 0 _ (by simp) (Nat.zero_le _) (fun k _ hk => hwrite k hk)]
  simp

/-- C6: for a record whose `title` and `price` lists have the same length `n`
(also 0, also with the keys absent), when the file is created and the `n + 1`
writes succeed, `saveToCSV` returns no error and writes exactly `n + 1` rows:
the header `Title`, `Price` and then, for `i` from 0 to `n - 1` in this order,
the row of `title[i]` and `price[i]`. -/
theorem saveToCSV_equal_lengths (E : Env) (filename : Str) (data : Record)
    (hlen : (Record.values data "title".toList).length = (Record.values data "price".toList).length)
    (hcreate : E.create filename = true)
    (hwrite : ∀ k, k ≤ (Record.values data "title".toList).length → E.csvWrite k = true) :
    ∃ rows, saveToCSV E filename data = ⟨.ok, some rows⟩ ∧
      rows.length = (Record.values data "title".toList).length + 1 ∧
      rows[0]? = some ["Title".toList, "Price".toList] ∧
      (∀ i t p, (Record.values data "title".toList)[i]? = some t →
        (Record.values data "price".toList)[i]? = some p → rows[i + 1]? = some [t, p]) ∧
      rows = ["Title".toList, "Price".toList] ::
        List.zipWith csvRow (Record.values data "title".toList)
          (Record.values data "price".toList) := by
  rw [saveToCSV_spec E filename data hcreate
    (fun k hk => hwrite k (le_trans hk (Nat.min_le_left _ _)))]
  generalize Record.values data "title".toList = title at hlen hwrite
  generalize Record.values data "price".toList = price at hlen
  refine ⟨["Title".toList, "Price".toList] :: List.zipWith csvRow title price,
    ?_, ?_, ?_, ?_, rfl⟩
  · rw [if_pos (le_of_eq hlen)]
  · simp [hlen]
  · simp
  · intro i t p ht hp
    simp [List.getElem?_zipWith, ht, hp, csvRow]

/-- C6 on the record with the titles `A`, `B` and the prices `1`, `2`. -/
theorem saveToCSV_equal_lengths_witness :
    ∃ rows, saveToCSV (sampleEnv sampleSite) "books.csv".toList
        (sampleRecord ["A".toList, "B".toList] ["1".toList, "2".toList]) = ⟨.ok, some rows⟩ ∧
      rows.length = 2 + 1 ∧
      rows = [["Title".toList, "Price".toList], ["A".toList, "1".toList],
        ["B".toList, "2".toList]] :=
  have h := saveToCSV_equal_lengths (sampleEnv sampleSite) "books.csv".toList
    (sampleRecord ["A".toList, "B".toList] ["1".toList, "2".toList])
    (by decide) (by decide) (fun _ _ => rfl)
  h.elim (fun rows hr => ⟨rows, hr.1, hr.2.1, hr.2.2.2.2⟩)

/-- C7, the claim fails: the record with one title and two prices has lists
of different lengths, and `saveToCSV` completes the export without an
out-of-range failure, writing the header and one row. -/
theorem saveToCSV_longer_price_completes :
    (Record.values (sampleRecord ["A".toList] ["1".toList, "2".toList]) "title".toList).length ≠
        (Record.values (sampleRecord ["A".toList] ["1".toList, "2".toList]) "price".toList).length ∧
      saveToCSV (sampleEnv sampleSite) "books.csv".toList
          (sampleRecord ["A".toList] ["1".toList, "2".toList]) =
        ⟨.ok, some [["Title".toList, "Price".toList], ["A".toList, "1".toList]]⟩ := by
  decide

/-- C7 as amended: when the file is created and the writes succeed, a record
whose `price` list is shorter than its `title` list makes `saveToCSV` end in
an out-of-range failure at the index `len(price)`, after the header and the
rows of the first `len(price)` pairs; a record whose `price` list is longer
makes it complete with one row for every title. -/
theorem saveToCSV_unequal_lengths (E : Env) (filename : Str) (data : Record)
    (hcreate : E.create filename = true)
    (hwrite : ∀ k, k ≤ min (Record.values data "title".toList).length
      (Record.values data "price".toList).length → E.csvWrite k = true) :
    ((Record.values data "price".toList).length < (Record.values data "title".toList).length →
        saveToCSV E filename data =
          ⟨.indexOutOfRange (Record.values data "price".toList).length
              (Record.values data "price".toList).length,
            some (["Title".toList, "Price".toList] ::
              List.zipWith csvRow
                ((Record.values data "title".toList).take (Record.values data "price".toList).length)
                (Record.values data "price".toList))⟩) ∧
      ((Record.values data "title".toList).length < (Record.values data "price".toList).length →
        saveToCSV E filename data =
          ⟨.ok,
            some (["Title".toList, "Price".toList] ::
              List.zipWith csvRow (Record.values data "title".toList)
                ((Record.values data "price".toList).take
                  (Record.values data "title".toList).length))⟩) := by
  have hz : ∀ (l1 l2 : List Str), l2.length ≤ l1.length →
      List.zipWith csvRow l1 l2 = List.zipWith csvRow (l1.take l2.length) l2 := by
    intro l1
    induction l1 with
    | nil => intro l2 _; simp
    | cons x xs ih =>
      intro l2 h
      cases l2 with
      | nil => simp
      | cons y ys =>
        simp only [List.length_cons, List.take_succ_cons, List.zipWith_cons_cons]
        rw [← ih ys (by simpa using h)]
  have hz2 : ∀ (l1 l2 : List Str), l1.length ≤ l2.length →
      List.zipWith csvRow l1 l2 = List.zipWith csvRow l1 (l2.take l1.length) := by
    intro l1
    induction l1 with
    | nil => intro l2 _; simp
    | cons x xs ih =>
      intro l2 h
      cases l2 with
      | nil => simp
      | cons y ys =>
        simp only [List.length_cons, List.take_succ_cons, List.zipWith_cons_cons]
        rw [← ih ys (by simpa using h)]
  rw [saveToCSV_spec E filename data hcreate hwrite]
  constructor
  · intro h
    rw [if_neg (by omega), ← hz _ _ (le_of_lt h)]
  · intro h
    rw [if_pos (le_of_lt h), ← hz2 _ _ (le_of_lt h)]

/-- C7 as amended, on the record with two titles and one price. -/
theorem saveToCSV_unequal_lengths_witness :
    saveToCSV (sampleEnv sampleSite) "books.csv".toList
        (sampleRecord ["A".toList, "B".toList] ["1".toList]) =
      ⟨.indexOutOfRange 1 1, some [["Title".toList, "Price".toList], ["A".toList, "1".toList]]⟩ :=
  (saveToCSV_unequal_lengths (sampleEnv sampleSite) "books.csv".toList
    (sampleRecord ["A".toList, "B".toList] ["1".toList])
    (by decide) (fun _ _ => rfl)).1 (by decide)

/-! ## `main` -/

/-- When the first call of `fetchPage` returns an error, `scrapeWebsite`
returns the empty list after that one call. -/
theorem scrapeWebsite_first_fetch_error (E : Env) (G : Goquery) (baseURL startPage : Str)
    (rules : RuleMap) (N : Int) (cacheDir : Str) (w : World) (e : FetchError)
    (h : (fetchPage E (baseURL ++ startPage) cacheDir w).1 = .error e) :
    (scrapeWebsite E G baseURL startPage rules N cacheDir w).result = some [] := by
  unfold scrapeWebsite
  cases N.toNat with
  | zero => rfl
  | succ left =>
    rw [scrapeLoop_succ]
    rcases hf : fetchPage E (baseURL ++ startPage) cacheDir w with ⟨res, w1⟩
    rw [hf] at h
    simp only at h
    subst h
    rfl

/-- With the required flags set and a cache directory at hand, a first fetch
that returns an error makes `main` evaluate `data[0]` on the empty list: the
process ends with an index out of range and `saveToCSV` is not called. -/
theorem main_first_fetch_error (E : Env) (G : Goquery) (flags : Flags) (w : World)
    (cacheDir : Str) (e : FetchError)
    (hbase : flags.baseURL ≠ []) (hstart : flags.startPage ≠ [])
    (hsel : flags.selectors ≠ [])
    (hdir : E.mkdirTemp = some cacheDir)
    (h : (fetchPage E (flags.baseURL ++ flags.startPage) cacheDir w).1 = .error e) :
    main E G flags w = ⟨.indexOutOfRange 0 0, some 0, none⟩ := by
  unfold main
  rw [if_neg (by simp [hbase, hstart, hsel])]
  simp only [hdir]
  rw [scrapeWebsite_first_fetch_error E G _ _ _ _ cacheDir w e h]

/-- C3, the code at the failing input: all required flags are set, the first
request is answered with the status code 404, `scrapeWebsite` returns the
empty list, and `main` ends with an index out of range at `data[0]`; no CSV
file is created, not even the header row is written. -/
theorem main_first_fetch_404 :
    sampleFlags.baseURL ≠ [] ∧ sampleFlags.startPage ≠ [] ∧ sampleFlags.selectors ≠ [] ∧
      (sampleEnv notFoundSite).httpGet 0 (sampleFlags.baseURL ++ sampleFlags.startPage) =
        .response 404 (some "not found".toList) ∧
      ((scrapeWebsite (sampleEnv notFoundSite) (sampleGoquery samplePages)
          sampleFlags.baseURL sampleFlags.startPage (parseSelectors sampleFlags.selectors)
          sampleFlags.maxPages "/tmp/web_cache1".toList emptyWorld).result.map List.length) =
        some 0 ∧
      main (sampleEnv notFoundSite) (sampleGoquery samplePages) sampleFlags emptyWorld =
        ⟨.indexOutOfRange 0 0, some 0, none⟩ := by
  refine ⟨by decide, by decide, by decide, by decide, by decide, ?_⟩
  exact main_first_fetch_error (sampleEnv notFoundSite) (sampleGoquery samplePages)
    sampleFlags emptyWorld "/tmp/web_cache1".toList (.statusCode 404)
    (by decide) (by decide) (by decide) rfl (by decide)

/-! ## The selector flag: the claim -/

/-- An entry with exactly one `=` is its name, the `=` and its expression. -/
theorem entry_eq_name_expr (entry : Str) (h : entry.count '=' = 1) :
    entry = entry.takeWhile (fun c => c != '=') ++
        '=' :: (entry.dropWhile (fun c => c != '=')).drop 1 ∧
      '=' ∉ entry.takeWhile (fun c => c != '=') ∧
      '=' ∉ (entry.dropWhile (fun c => c != '=')).drop 1 := by
  have h1 := split_of_count_one '=' entry h
  have h2 := split_intercalate '=' entry
  have h3 := split_no_sep '=' entry
  rw [h1] at h2 h3
  refine ⟨?_, h3 _ (by simp), h3 _ (by simp)⟩
  simp only [List.intercalate, List.intersperse, List.flatten] at h2
  simpa using h2.symm

/-- C9: for every selectors string, the map `main` builds binds `name` to
`expr` exactly when, among the comma-separated entries with exactly one `=`
and `name` in front of it, the last one has `expr` behind the `=`; an entry
with no `=` or with two or more leaves the map as it is, and the keys of the
map are pairwise different. -/
theorem parseSelectors_bindings (selectors : Str) :
    (∀ name, RuleMap.get (parseSelectors selectors) name =
        selectorBindingSpec selectors name) ∧
      (∀ (m : RuleMap) (entry : Str), entry.count '=' ≠ 1 → addSelector m entry = m) ∧
      (∀ (m : RuleMap) (entry : Str), entry.count '=' = 1 →
        ∃ name expr, entry = name ++ '=' :: expr ∧ '=' ∉ name ∧ '=' ∉ expr ∧
          addSelector m entry = RuleMap.set m name expr) ∧
      ((parseSelectors selectors).map Prod.fst).Nodup := by
  refine ⟨?_, ?_, ?_, parseSelectors_keys_nodup selectors⟩
  · intro name
    exact foldl_addSelector_get (split ',' selectors) name
  · intro m entry h
    exact addSelector_of_count_ne_one m entry h
  · intro m entry h
    obtain ⟨h1, h2, h3⟩ := entry_eq_name_expr entry h
    exact ⟨_, _, h1, h2, h3, addSelector_of_count_one m entry h⟩

end WebScraper
